import Mathlib

/-!
Verification development for the capability-normalization core of a
client-side ONVIF camera library (file device.go). The decoded response
tree is embedded as the tagged union DynValue; the path navigator
(provided by an external dependency and described in the specification)
is modelled from the spec; the coercion helpers and the body of
GetCapabilities are translated from the source.
-/

/-- DynValue is the tagged-union representation of a decoded response node:
null, boolean, number, string, ordered list, or keyed mapping with unique
string keys (Go: nested interface values produced by decoding). -/
inductive DynValue where
  | null
  | bool (b : Bool)
  | num (n : Int)
  | str (s : String)
  | list (elems : List DynValue)
  | map (entries : List (String × DynValue))

/-- isMap tests whether a node is a keyed Mapping (Go: the type assertion
src.(map[string]interface\x7b\x7d) succeeding). -/
def DynValue.isMap : DynValue → Bool
  | .map _ => true
  | _ => false

/-- isStr tests whether a node is a String (Go: the type assertion
src.(string) succeeding). -/
def DynValue.isStr : DynValue → Bool
  | .str _ => true
  | _ => false

/-- lookupKey finds the value bound to a key in a Mapping entry list
(keys are unique, so first match is the match). -/
def lookupKey : List (String × DynValue) → String → Option DynValue
  | [], _ => none
  | (k, v) :: rest, key => if k = key then some v else lookupKey rest key

/-- mapGet models Go map indexing m[k] on a decoded Mapping: a missing
key yields the nil interface value, embedded as DynValue.null. -/
def mapGet (m : List (String × DynValue)) (k : String) : DynValue :=
  (lookupKey m k).getD .null

/-- walkPath walks successive Mapping lookups along a segment list;
returns none (NotFoundError) the first time a segment is missing or the
current node is not a Mapping. -/
def walkPath : DynValue → List String → Option DynValue
  | v, [] => some v
  | .map m, seg :: rest =>
    match lookupKey m seg with
    | some v => walkPath v rest
    | none => none
  | _, _ :: _ => none

/-- splitOnDotAux accumulates the current segment (reversed) while
scanning the character list. -/
def splitOnDotAux : List Char → List Char → List String
  | [], acc => [⟨acc.reverse⟩]
  | c :: cs, acc =>
    if c = '.' then ⟨acc.reverse⟩ :: splitOnDotAux cs []
    else splitOnDotAux cs (c :: acc)

/-- splitOnDot splits a path into its dot-separated segments (Go
strings.Split(path, ".") for the single-character separator). -/
def splitOnDot (path : String) : List String :=
  splitOnDotAux path.data []

/-- Modelled from the spec: the PathNavigator operation valueAt (the
ValueForPath method of the decoded response, implemented by an external
library whose source is not part of this repository). It splits the path
on the dot character and walks successive keyed-Mapping lookups, failing
with NotFoundError when a segment is absent or the node is not a
Mapping. -/
def valueForPath (root : DynValue) (path : String) : Option DynValue :=
  walkPath root (splitOnDot path)

/-- asciiToLower lowers one character; Go strings.ToLower acts exactly
like this on the ASCII range, which covers every key and flag value of
the protocol. -/
def asciiToLower (c : Char) : Char :=
  if 'A' ≤ c && c ≤ 'Z' then Char.ofNat (c.toNat + 32) else c

/-- stringToLower models Go strings.ToLower (restricted to ASCII, see
asciiToLower). -/
def stringToLower (s : String) : String :=
  ⟨s.data.map asciiToLower⟩

/-- interfaceToString is translated from the source: the Go type
assertion str, _ := src.(string) yields the string, or the empty string
for every non-String value. -/
def interfaceToString : DynValue → String
  | .str s => s
  | _ => ""

/-- interfaceToBool is translated from the source: lower-case the string
form of the value and compare with the literal true. -/
def interfaceToBool (src : DynValue) : Bool :=
  stringToLower (interfaceToString src) == "true"

/-- listReplaceFirst removes the first occurrence of pat (replacing it by
repl) in a character list; Go strings.Replace(s, pat, repl, 1) for the
patterns used in the source. -/
def listReplaceFirst (pat repl : List Char) : List Char → List Char
  | [] => if pat = [] then repl else []
  | c :: cs =>
    if pat.isPrefixOf (c :: cs) then repl ++ (c :: cs).drop pat.length
    else c :: listReplaceFirst pat repl cs

/-- listReplaceAllFuel is the fuel-indexed worker behind listReplaceAll;
one unit of fuel is spent per remaining character, so fuel equal to the
length of the input always suffices. -/
def listReplaceAllFuel (pat repl : List Char) : Nat → List Char → List Char
  | _, [] => []
  | 0, l => l
  | fuel + 1, c :: cs =>
    if pat ≠ [] ∧ pat.isPrefixOf (c :: cs) then
      repl ++ listReplaceAllFuel pat repl fuel ((c :: cs).drop pat.length)
    else c :: listReplaceAllFuel pat repl fuel cs

/-- listReplaceAll replaces every non-overlapping occurrence of a
non-empty pat by repl in a character list; Go
strings.Replace(s, pat, repl, -1) for the patterns used in the source. -/
def listReplaceAll (pat repl : List Char) (l : List Char) : List Char :=
  listReplaceAllFuel pat repl l.length l

/-- stringsReplaceOnce is Go strings.Replace(s, pat, repl, 1). -/
def stringsReplaceOnce (s pat repl : String) : String :=
  ⟨listReplaceFirst pat.data repl.data s.data⟩

/-- stringsReplaceAll is Go strings.Replace(s, pat, repl, -1). -/
def stringsReplaceAll (s pat repl : String) : String :=
  ⟨listReplaceAll pat.data repl.data s.data⟩

/-- listCharLt is strict lexicographic order on character lists, deciding
by code point at the first differing position (for UTF-8 encoded strings
this agrees with the byte-wise order Go uses on strings). -/
def listCharLt : List Char → List Char → Bool
  | [], [] => false
  | [], _ :: _ => true
  | _ :: _, [] => false
  | c :: cs, d :: ds =>
    if c = d then listCharLt cs ds else decide (c.toNat < d.toNat)

/-- strLt is strict lexicographic order on strings. -/
def strLt (a b : String) : Bool :=
  listCharLt a.data b.data

/-- mapInsert models the Go map assignment m[k] = b on a map of string to
bool, with the map value represented canonically as its entry list sorted
by key (two Go map values are equal exactly when their canonical entry
lists are equal). -/
def mapInsert (k : String) (b : Bool) : List (String × Bool) → List (String × Bool)
  | [] => [(k, b)]
  | (k', b') :: rest =>
    if k = k' then (k, b) :: rest
    else if strLt k k' then (k, b) :: (k', b') :: rest
    else (k', b') :: mapInsert k b rest

/-- hasKey tests key membership in a represented Go map of string to
bool. -/
def hasKey (m : List (String × Bool)) (k : String) : Bool :=
  m.any (fun p => p.1 == k)

/-- capHasKey is key membership lifted to the optional (possibly nil)
maps of the capability aggregate; lookup in a nil Go map finds
nothing. -/
def capHasKey : Option (List (String × Bool)) → String → Bool
  | none, _ => false
  | some m, k => hasKey m k

/-- Modelled from the spec: NetworkCapabilities, the Network section of
the aggregate (the struct itself is declared outside the provided
sources; fields per spec section 3). A nil Go map is Option.none; an
initialized map is some of its canonical entry list. -/
structure NetworkCapabilities where
  DynDNS : Bool := false
  IPFilter : Bool := false
  IPVersion6 : Bool := false
  ZeroConfig : Bool := false
  Extension : Option (List (String × Bool)) := none
deriving DecidableEq, Repr

/-- Modelled from the spec: DeviceCapabilities, the aggregate returned by
GetCapabilities (the struct itself is declared outside the provided
sources; fields per spec section 3). The default values form the Go zero
value, with nil (none) maps. -/
structure DeviceCapabilities where
  Network : NetworkCapabilities := {}
  Events : Option (List (String × Bool)) := none
  Streaming : Option (List (String × Bool)) := none
  PTZ : Bool := false
deriving DecidableEq, Repr

/-- capMapStep is one iteration of the range loops of GetCapabilities
that fill a map of string to bool: skip the key, or rename it and store
the coerced value. -/
def capMapStep (skip : String → Bool) (rename : String → String)
    (acc : List (String × Bool)) (kv : String × DynValue) : List (String × Bool) :=
  if skip kv.1 then acc else mapInsert (rename kv.1) (interfaceToBool kv.2) acc

/-- buildCapMap runs such a loop over the entries of a wire Mapping,
starting from a freshly made empty map. -/
def buildCapMap (skip : String → Bool) (rename : String → String)
    (entries : List (String × DynValue)) : List (String × Bool) :=
  entries.foldl (capMapStep skip rename) []

/-- eventsFromMap is the Events loop of GetCapabilities: keys whose
lower-cased form is xaddr are skipped; the first occurrence of the
substring WS is removed from every stored key. -/
def eventsFromMap : List (String × DynValue) → List (String × Bool) :=
  buildCapMap (fun key => stringToLower key == "xaddr")
    (fun key => stringsReplaceOnce key "WS" "")

/-- streamingFromMap is the StreamingCapabilities loop of
GetCapabilities: every underscore in a key is replaced by a space; no key
is skipped. -/
def streamingFromMap : List (String × DynValue) → List (String × Bool) :=
  buildCapMap (fun _ => false) (fun key => stringsReplaceAll key "_" " ")

/-- extensionFromMap is the Network Extension loop of GetCapabilities:
every entry is stored under its own key. -/
def extensionFromMap : List (String × DynValue) → List (String × Bool) :=
  buildCapMap (fun _ => false) (fun key => key)

/-- netCapOf builds the NetworkCapabilities value from the node found at
the Device.Network path (source lines 84 to 98): when the node is a
Mapping the four named flags are coerced and Extension is initialized
(empty unless the Extension sub-entry is itself a Mapping); otherwise the
zero value is kept, with Extension left nil. -/
def netCapOf : DynValue → NetworkCapabilities
  | .map mapNetCap =>
    { DynDNS := interfaceToBool (mapGet mapNetCap "DynDNS"),
      IPFilter := interfaceToBool (mapGet mapNetCap "IPFilter"),
      IPVersion6 := interfaceToBool (mapGet mapNetCap "IPVersion6"),
      ZeroConfig := interfaceToBool (mapGet mapNetCap "ZeroConfiguration"),
      Extension := some (match lookupKey mapNetCap "Extension" with
        | some (.map mapNetExtension) => extensionFromMap mapNetExtension
        | _ => []) }
  | _ => {}

/-- eventsCapOf builds the Events map from the node found at the Events
path (source lines 106 to 116): the map is made (initialized empty)
unconditionally and filled only when the node is a Mapping. -/
def eventsCapOf : DynValue → List (String × Bool)
  | .map mapEventsCap => eventsFromMap mapEventsCap
  | _ => []

/-- streamingCapOf builds the Streaming map from the node found at the
Media.StreamingCapabilities path (source lines 124 to 130): the map is
made (initialized empty) unconditionally and filled only when the node is
a Mapping. -/
def streamingCapOf : DynValue → List (String × Bool)
  | .map mapStreamingCap => streamingFromMap mapStreamingCap
  | _ => []

/-- envelopeBodyPath is the root path of the capability response body. -/
def envelopeBodyPath : String := "Envelope.Body.GetCapabilitiesResponse.Capabilities"

/-- GetCapabilities is translated from the source (device.go lines 64 to
147), starting from the decoded response tree (the SOAP transport that
produces it is outside the core). The Go pair of result and error is a
pair of DeviceCapabilities and an optional failing path: each of the
three mandatory lookups returns the zero aggregate with an error when it
fails; the PTZ lookup failure only clears the PTZ flag. -/
def GetCapabilities (response : DynValue) : DeviceCapabilities × Option String :=
  match valueForPath response (envelopeBodyPath ++ ".Device.Network") with
  | none => ({}, some (envelopeBodyPath ++ ".Device.Network"))
  | some ifaceNetCap =>
    let netCap : NetworkCapabilities := netCapOf ifaceNetCap
    match valueForPath response (envelopeBodyPath ++ ".Events") with
    | none => ({}, some (envelopeBodyPath ++ ".Events"))
    | some ifaceEventsCap =>
      let eventsCap : List (String × Bool) := eventsCapOf ifaceEventsCap
      match valueForPath response (envelopeBodyPath ++ ".Media.StreamingCapabilities") with
      | none => ({}, some (envelopeBodyPath ++ ".Media.StreamingCapabilities"))
      | some ifaceStreamingCap =>
        let streamingCap : List (String × Bool) := streamingCapOf ifaceStreamingCap
        let ptzCap : Bool := (valueForPath response (envelopeBodyPath ++ ".PTZ")).isSome
        ({ Network := netCap, Events := some eventsCap,
           Streaming := some streamingCap, PTZ := ptzCap }, none)

/-! Shape lemmas: how GetCapabilities evaluates once the outcome of the
three mandatory lookups is known. -/

/-- gc_netFail: a missing Device.Network branch returns the zero
aggregate and the failing path. -/
theorem gc_netFail (r : DynValue)
    (h : valueForPath r (envelopeBodyPath ++ ".Device.Network") = none) :
    GetCapabilities r = ({}, some (envelopeBodyPath ++ ".Device.Network")) := by
  simp [GetCapabilities, h]

/-- gc_eventsFail: with Device.Network found, a missing Events branch
returns the zero aggregate and the failing path. -/
theorem gc_eventsFail (r : DynValue) (vn : DynValue)
    (hn : valueForPath r (envelopeBodyPath ++ ".Device.Network") = some vn)
    (he : valueForPath r (envelopeBodyPath ++ ".Events") = none) :
    GetCapabilities r = ({}, some (envelopeBodyPath ++ ".Events")) := by
  simp [GetCapabilities, hn, he]

/-- gc_streamFail: with the first two branches found, a missing
Media.StreamingCapabilities branch returns the zero aggregate and the
failing path. -/
theorem gc_streamFail (r : DynValue) (vn ve : DynValue)
    (hn : valueForPath r (envelopeBodyPath ++ ".Device.Network") = some vn)
    (he : valueForPath r (envelopeBodyPath ++ ".Events") = some ve)
    (hs : valueForPath r (envelopeBodyPath ++ ".Media.StreamingCapabilities") = none) :
    GetCapabilities r = ({}, some (envelopeBodyPath ++ ".Media.StreamingCapabilities")) := by
  simp [GetCapabilities, hn, he, hs]

/-- gc_success: with all three mandatory branches found, GetCapabilities
assembles the aggregate from the three section builders and the PTZ
presence flag, with no error. -/
theorem gc_success (r : DynValue) (vn ve vs : DynValue)
    (hn : valueForPath r (envelopeBodyPath ++ ".Device.Network") = some vn)
    (he : valueForPath r (envelopeBodyPath ++ ".Events") = some ve)
    (hs : valueForPath r (envelopeBodyPath ++ ".Media.StreamingCapabilities") = some vs) :
    GetCapabilities r =
      ({ Network := netCapOf vn, Events := some (eventsCapOf ve),
         Streaming := some (streamingCapOf vs),
         PTZ := (valueForPath r (envelopeBodyPath ++ ".PTZ")).isSome }, none) := by
  simp [GetCapabilities, hn, he, hs]

/-! Lemmas about the range-loop folds. -/

/-- hasKey_mapInsert: the keys after a Go map assignment are the assigned
key together with the previous keys. -/
theorem hasKey_mapInsert (k k' : String) (b : Bool) (m : List (String × Bool)) :
    hasKey (mapInsert k b m) k' = (k' == k || hasKey m k') := by
  induction m with
  | nil =>
    simp only [mapInsert, hasKey, List.any_cons, List.any_nil, Bool.or_false]
    by_cases h : k' = k
    · subst h; simp
    · have ha : (k == k') = false := by rw [beq_eq_false_iff_ne]; exact Ne.symm h
      have hb : (k' == k) = false := by rw [beq_eq_false_iff_ne]; exact h
      rw [ha, hb]
  | cons p rest ih =>
    obtain ⟨k₀, b₀⟩ := p
    simp only [mapInsert]
    split_ifs with h1 h2
    · subst h1
      simp only [hasKey, List.any_cons]
      by_cases h : k' = k
      · subst h; simp
      · have ha : (k == k') = false := by rw [beq_eq_false_iff_ne]; exact Ne.symm h
        have hb : (k' == k) = false := by rw [beq_eq_false_iff_ne]; exact h
        rw [ha, hb]
        simp
    · simp only [hasKey, List.any_cons]
      by_cases h : k' = k
      · subst h; simp
      · have ha : (k == k') = false := by rw [beq_eq_false_iff_ne]; exact Ne.symm h
        have hb : (k' == k) = false := by rw [beq_eq_false_iff_ne]; exact h
        rw [ha, hb]
    · simp only [hasKey, List.any_cons] at ih ⊢
      rw [ih]
      cases (k' == k) <;> cases (k₀ == k') <;> simp

/-- hasKey_foldl_mono: a key present in the accumulator stays present
through a capability map loop. -/
theorem hasKey_foldl_mono (skip : String → Bool) (f : String → String)
    (l : List (String × DynValue)) :
    ∀ (acc : List (String × Bool)) (k' : String), hasKey acc k' = true →
      hasKey (l.foldl (capMapStep skip f) acc) k' = true := by
  induction l with
  | nil => intro acc k' h; exact h
  | cons p rest ih =>
    intro acc k' h
    simp only [List.foldl_cons]
    apply ih
    unfold capMapStep
    split_ifs with hp
    · exact h
    · rw [hasKey_mapInsert, h]
      simp

/-- hasKey_foldl_of_mem: each non-skipped wire entry leaves its renamed
key present in the loop result. -/
theorem hasKey_foldl_of_mem (skip : String → Bool) (f : String → String)
    (l : List (String × DynValue)) :
    ∀ (acc : List (String × Bool)) (k : String) (v : DynValue),
      (k, v) ∈ l → skip k = false →
      hasKey (l.foldl (capMapStep skip f) acc) (f k) = true := by
  induction l with
  | nil => intro acc k v hmem _; exact absurd hmem (List.not_mem_nil _)
  | cons p rest ih =>
    intro acc k v hmem hskip
    simp only [List.foldl_cons]
    rcases List.mem_cons.mp hmem with heq | hmem'
    · apply hasKey_foldl_mono
      rw [← heq]
      simp [capMapStep, hskip, hasKey_mapInsert]
    · exact ih _ k v hmem' hskip

/-- hasKey_foldl_source: every key of the loop result is either already
in the accumulator or the renamed form of a non-skipped wire key. -/
theorem hasKey_foldl_source (skip : String → Bool) (f : String → String)
    (l : List (String × DynValue)) :
    ∀ (acc : List (String × Bool)) (k' : String),
      hasKey (l.foldl (capMapStep skip f) acc) k' = true →
      hasKey acc k' = true ∨
        ∃ k v, (k, v) ∈ l ∧ skip k = false ∧ k' = f k := by
  induction l with
  | nil => intro acc k' h; exact Or.inl h
  | cons p rest ih =>
    intro acc k' h
    simp only [List.foldl_cons] at h
    rcases ih _ k' h with hacc | ⟨k, v, hm, hs, he⟩
    · revert hacc
      unfold capMapStep
      split_ifs with hp
      · intro hacc; exact Or.inl hacc
      · intro hacc
        rw [hasKey_mapInsert] at hacc
        rcases Bool.or_eq_true_iff.mp hacc with hfp | hprev
        · exact Or.inr ⟨p.1, p.2, by simp, by simpa using hp, by simpa using hfp⟩
        · exact Or.inl hprev
    · exact Or.inr ⟨k, v, List.mem_cons_of_mem _ hm, hs, he⟩

/-- foldl_filter_skip: entries whose key is skipped contribute nothing to
a capability map loop. -/
theorem foldl_filter_skip (skip : String → Bool) (f : String → String)
    (l : List (String × DynValue)) :
    ∀ acc : List (String × Bool),
      l.foldl (capMapStep skip f) acc =
        (l.filter fun p => !skip p.1).foldl (capMapStep skip f) acc := by
  induction l with
  | nil => intro acc; rfl
  | cons p rest ih =>
    intro acc
    by_cases hp : skip p.1 = true
    · have hfil : (p :: rest).filter (fun q => !skip q.1) =
          rest.filter (fun q => !skip q.1) := by
        simp [List.filter_cons, hp]
      have hstep : capMapStep skip f acc p = acc := by
        simp [capMapStep, hp]
      rw [hfil, List.foldl_cons, hstep]
      exact ih acc
    · have hp' : skip p.1 = false := by simpa using hp
      have hfil : (p :: rest).filter (fun q => !skip q.1) =
          p :: rest.filter (fun q => !skip q.1) := by
        simp [List.filter_cons, hp']
      rw [hfil, List.foldl_cons, List.foldl_cons]
      exact ih _

/-! Order facts used to show that the canonical map representation is
insensitive to the iteration order of distinct keys. -/

/-- charEqOfToNatEq: the code point determines the character. -/
theorem charEqOfToNatEq (a b : Char) (h : a.toNat = b.toNat) : a = b :=
  Char.ext (UInt32.ext h)

/-- listCharLt_asymm: the lexicographic order is asymmetric. -/
theorem listCharLt_asymm : ∀ a b : List Char,
    listCharLt a b = true → listCharLt b a = false := by
  intro a
  induction a with
  | nil =>
    intro b h
    cases b with
    | nil => simp [listCharLt] at h
    | cons d ds => simp [listCharLt]
  | cons c cs ih =>
    intro b h
    cases b with
    | nil => simp [listCharLt] at h
    | cons d ds =>
      by_cases hcd : c = d
      · subst hcd
        simp only [listCharLt, if_pos rfl] at h ⊢
        exact ih ds h
      · simp only [listCharLt, if_neg hcd] at h
        have hlt : c.toNat < d.toNat := by simpa using h
        simp only [listCharLt, if_neg (Ne.symm hcd)]
        simp [Nat.not_lt.mpr (Nat.le_of_lt hlt)]

/-- listCharLt_connex: two distinct character lists compare strictly in
one direction. -/
theorem listCharLt_connex : ∀ a b : List Char, a ≠ b →
    listCharLt a b = true ∨ listCharLt b a = true := by
  intro a
  induction a with
  | nil =>
    intro b hne
    cases b with
    | nil => exact absurd rfl hne
    | cons d ds => left; simp [listCharLt]
  | cons c cs ih =>
    intro b hne
    cases b with
    | nil => right; simp [listCharLt]
    | cons d ds =>
      by_cases hcd : c = d
      · subst hcd
        have hne' : cs ≠ ds := by
          intro h; exact hne (by rw [h])
        rcases ih ds hne' with h | h
        · left; simpa [listCharLt] using h
        · right; simpa [listCharLt] using h
      · have hnat : c.toNat ≠ d.toNat := fun h => hcd (charEqOfToNatEq c d h)
        rcases Nat.lt_or_ge c.toNat d.toNat with h | h
        · left; simp [listCharLt, if_neg hcd, h]
        · have h' : d.toNat < c.toNat := Nat.lt_of_le_of_ne h (Ne.symm hnat)
          right; simp [listCharLt, if_neg (Ne.symm hcd), h']

/-- listCharLt_trans: the lexicographic order is transitive. -/
theorem listCharLt_trans : ∀ a b c : List Char,
    listCharLt a b = true → listCharLt b c = true → listCharLt a c = true := by
  intro a
  induction a with
  | nil =>
    intro b c hab hbc
    cases b with
    | nil => simp [listCharLt] at hab
    | cons y ys =>
      cases c with
      | nil => simp [listCharLt] at hbc
      | cons z zs => simp [listCharLt]
  | cons x xs ih =>
    intro b c hab hbc
    cases b with
    | nil => simp [listCharLt] at hab
    | cons y ys =>
      cases c with
      | nil => simp [listCharLt] at hbc
      | cons z zs =>
        by_cases hxy : x = y
        · subst hxy
          simp only [listCharLt, if_pos rfl] at hab
          by_cases hyz : x = z
          · subst hyz
            simp only [listCharLt, if_pos rfl] at hbc ⊢
            exact ih ys zs hab hbc
          · simp only [listCharLt, if_neg hyz] at hbc ⊢
            exact hbc
        · simp only [listCharLt, if_neg hxy] at hab
          have hab' : x.toNat < y.toNat := by simpa using hab
          by_cases hyz : y = z
          · subst hyz
            simp [listCharLt, if_neg hxy, hab']
          · simp only [listCharLt, if_neg hyz] at hbc
            have hbc' : y.toNat < z.toNat := by simpa using hbc
            have hxz' : x.toNat < z.toNat := Nat.lt_trans hab' hbc'
            have hxz : x ≠ z := by
              intro h
              subst h
              exact Nat.lt_irrefl _ hxz'
            simp [listCharLt, if_neg hxz, hxz']

/-- strLt_asymm: asymmetry, lifted to strings. -/
theorem strLt_asymm (a b : String) (h : strLt a b = true) : strLt b a = false :=
  listCharLt_asymm a.data b.data h

/-- strLt_trans: transitivity, lifted to strings. -/
theorem strLt_trans (a b c : String) (hab : strLt a b = true)
    (hbc : strLt b c = true) : strLt a c = true :=
  listCharLt_trans a.data b.data c.data hab hbc

/-- strLt_connex: totality on distinct strings. -/
theorem strLt_connex (a b : String) (h : a ≠ b) :
    strLt a b = true ∨ strLt b a = true := by
  refine listCharLt_connex a.data b.data ?_
  intro hd
  apply h
  cases a
  cases b
  exact congrArg String.mk hd

/-- mapInsert_comm: assignments under distinct keys commute on the
canonical map representation. -/
theorem mapInsert_comm (k₁ k₂ : String) (b₁ b₂ : Bool) (hne : k₁ ≠ k₂) :
    ∀ m : List (String × Bool),
      mapInsert k₁ b₁ (mapInsert k₂ b₂ m) = mapInsert k₂ b₂ (mapInsert k₁ b₁ m) := by
  intro m
  induction m with
  | nil =>
    rcases strLt_connex k₁ k₂ hne with hlt | hlt
    · have hgt := strLt_asymm _ _ hlt
      simp [mapInsert, hne, Ne.symm hne, hlt, hgt]
    · have hgt := strLt_asymm _ _ hlt
      simp [mapInsert, hne, Ne.symm hne, hlt, hgt]
  | cons p rest ih =>
    obtain ⟨k₀, b₀⟩ := p
    by_cases h10 : k₁ = k₀
    · subst h10
      rcases strLt_connex k₁ k₂ hne with hlt | hlt
      · have hgt := strLt_asymm _ _ hlt
        simp [mapInsert, hne, Ne.symm hne, hlt, hgt]
      · have hgt := strLt_asymm _ _ hlt
        simp [mapInsert, hne, Ne.symm hne, hlt, hgt]
    · by_cases h20 : k₂ = k₀
      · subst h20
        rcases strLt_connex k₁ k₂ hne with hlt | hlt
        · have hgt := strLt_asymm _ _ hlt
          simp [mapInsert, hne, Ne.symm hne, h10, hlt, hgt]
        · have hgt := strLt_asymm _ _ hlt
          simp [mapInsert, hne, Ne.symm hne, h10, hlt, hgt]
      · by_cases hl10 : strLt k₁ k₀ = true
        · by_cases hl20 : strLt k₂ k₀ = true
          · rcases strLt_connex k₁ k₂ hne with hlt | hlt
            · have hgt := strLt_asymm _ _ hlt
              simp [mapInsert, hne, Ne.symm hne, h10, h20, hl10, hl20, hlt, hgt]
            · have hgt := strLt_asymm _ _ hlt
              simp [mapInsert, hne, Ne.symm hne, h10, h20, hl10, hl20, hlt, hgt]
          · have h02 : strLt k₀ k₂ = true := by
              rcases strLt_connex k₂ k₀ h20 with h | h
              · exact absurd h hl20
              · exact h
            have h12 : strLt k₁ k₂ = true := strLt_trans _ _ _ hl10 h02
            have h21 : strLt k₂ k₁ = false := strLt_asymm _ _ h12
            simp [mapInsert, hne, Ne.symm hne, h10, h20, hl10, hl20, h12, h21]
        · by_cases hl20 : strLt k₂ k₀ = true
          · have h01 : strLt k₀ k₁ = true := by
              rcases strLt_connex k₁ k₀ h10 with h | h
              · exact absurd h hl10
              · exact h
            have h21 : strLt k₂ k₁ = true := strLt_trans _ _ _ hl20 h01
            have h12 : strLt k₁ k₂ = false := strLt_asymm _ _ h21
            simp [mapInsert, hne, Ne.symm hne, h10, h20, hl10, hl20, h21, h12]
          · simp [mapInsert, h10, h20, hl10, hl20, ih]

/-- RenameApart is the pairwise condition under which the order in which
two wire entries are processed cannot matter: one of them is skipped, or
their renamed keys differ. -/
def RenameApart (skip : String → Bool) (rename : String → String)
    (a b : String × DynValue) : Prop :=
  skip a.1 = true ∨ skip b.1 = true ∨ rename a.1 ≠ rename b.1

/-- renameApart_symm: the condition is symmetric. -/
theorem renameApart_symm (skip : String → Bool) (rename : String → String) :
    Symmetric (RenameApart skip rename) := by
  intro a b h
  rcases h with h | h | h
  · exact Or.inr (Or.inl h)
  · exact Or.inl h
  · exact Or.inr (Or.inr (Ne.symm h))

/-- capMapStep_comm: two loop iterations commute when their entries are
RenameApart. -/
theorem capMapStep_comm (skip : String → Bool) (rename : String → String)
    (a b : String × DynValue) (h : RenameApart skip rename a b)
    (acc : List (String × Bool)) :
    capMapStep skip rename (capMapStep skip rename acc a) b =
      capMapStep skip rename (capMapStep skip rename acc b) a := by
  by_cases ha : skip a.1 = true
  · by_cases hb : skip b.1 = true
    · simp [capMapStep, ha, hb]
    · simp [capMapStep, ha, hb]
  · by_cases hb : skip b.1 = true
    · simp [capMapStep, ha, hb]
    · have hre : rename a.1 ≠ rename b.1 := by
        rcases h with h | h | h
        · exact absurd h ha
        · exact absurd h hb
        · exact h
      simp only [capMapStep, if_neg ha, if_neg hb]
      exact mapInsert_comm (rename b.1) (rename a.1) (interfaceToBool b.2)
        (interfaceToBool a.2) (Ne.symm hre) acc

/-- foldl_perm_of_renameApart: a capability map loop gives the same
canonical map on any two iteration orders of the same entries, provided
the entries are pairwise RenameApart. -/
theorem foldl_perm_of_renameApart (skip : String → Bool) (rename : String → String)
    {l₁ l₂ : List (String × DynValue)} (p : l₁.Perm l₂) :
    l₁.Pairwise (RenameApart skip rename) →
    ∀ acc : List (String × Bool),
      l₁.foldl (capMapStep skip rename) acc = l₂.foldl (capMapStep skip rename) acc := by
  induction p with
  | nil => intro _ acc; rfl
  | cons x p ih =>
    intro hp acc
    simp only [List.foldl_cons]
    exact ih (List.Pairwise.of_cons hp) _
  | swap x y l =>
    intro hp acc
    simp only [List.foldl_cons]
    rw [capMapStep_comm skip rename y x ((List.pairwise_cons.mp hp).1 x (by simp)) acc]
  | trans p₁ p₂ ih₁ ih₂ =>
    intro hp acc
    rw [ih₁ hp acc]
    exact ih₂ ((p₁.pairwise_iff (fun h => renameApart_symm skip rename h)).mp hp) acc

/-! Concrete response trees used to instantiate and to refute claims. -/

/-- mkCapabilitiesResponse wraps a Capabilities entry list in the
envelope structure of a capability response. -/
def mkCapabilitiesResponse (capEntries : List (String × DynValue)) : DynValue :=
  .map [("Envelope", .map [("Body", .map [("GetCapabilitiesResponse",
    .map [("Capabilities", .map capEntries)])])])]

/-- specTree is the end-to-end scenario tree of the specification. -/
def specTree : DynValue :=
  mkCapabilitiesResponse [
    ("Device", .map [("Network", .map [
      ("DynDNS", .str "false"), ("IPFilter", .str "true"), ("IPVersion6", .str "false"),
      ("ZeroConfiguration", .str "true"), ("Extension", .map [("Foo", .str "true")])])]),
    ("Events", .map [("WSPullPoint", .str "true"), ("XAddr", .str "http://x")]),
    ("Media", .map [("StreamingCapabilities", .map [("RTP_TCP", .str "true")])])]

/-- w1tree has a Network branch but no Events branch. -/
def w1tree : DynValue :=
  mkCapabilitiesResponse [("Device", .map [("Network", .map [])])]

/-- w3tree carries DynDNS with the upper-case value TRUE. -/
def w3tree : DynValue :=
  mkCapabilitiesResponse [
    ("Device", .map [("Network", .map [("DynDNS", .str "TRUE")])]),
    ("Events", .map []),
    ("Media", .map [("StreamingCapabilities", .map [])])]

/-- w7tree carries a Null node at the PTZ path. -/
def w7tree : DynValue :=
  mkCapabilitiesResponse [
    ("Device", .map [("Network", .map [])]),
    ("Events", .map []),
    ("Media", .map [("StreamingCapabilities", .map [])]),
    ("PTZ", .null)]

/-- w9tree has Events and StreamingCapabilities branches that exist but
are not Mappings. -/
def w9tree : DynValue :=
  mkCapabilitiesResponse [
    ("Device", .map [("Network", .map [])]),
    ("Events", .str "scalar"),
    ("Media", .map [("StreamingCapabilities", .num 3)])]

/-- C1: for every decoded response tree in which one of the three
mandatory branches (Device.Network, Events, Media.StreamingCapabilities
under the Capabilities path) is absent, GetCapabilities returns a
non-nil error together with the zero-value DeviceCapabilities aggregate;
no partially populated aggregate is returned on this failure path. -/
theorem C1_hard_failure_returns_zero_and_error (r : DynValue)
    (h : valueForPath r (envelopeBodyPath ++ ".Device.Network") = none ∨
         valueForPath r (envelopeBodyPath ++ ".Events") = none ∨
         valueForPath r (envelopeBodyPath ++ ".Media.StreamingCapabilities") = none) :
    (GetCapabilities r).1 = {} ∧ (GetCapabilities r).2.isSome = true := by
  cases hn : valueForPath r (envelopeBodyPath ++ ".Device.Network") with
  | none => rw [gc_netFail r hn]; exact ⟨rfl, rfl⟩
  | some vn =>
    cases he : valueForPath r (envelopeBodyPath ++ ".Events") with
    | none => rw [gc_eventsFail r vn hn he]; exact ⟨rfl, rfl⟩
    | some ve =>
      cases hs : valueForPath r (envelopeBodyPath ++ ".Media.StreamingCapabilities") with
      | none => rw [gc_streamFail r vn ve hn he hs]; exact ⟨rfl, rfl⟩
      | some vs =>
        rcases h with h | h | h
        · rw [hn] at h; exact Option.noConfusion h
        · rw [he] at h; exact Option.noConfusion h
        · rw [hs] at h; exact Option.noConfusion h

/-- C1 witness: w1tree has a Network branch but no Events branch, and
GetCapabilities returns the zero aggregate with an error. -/
theorem C1_witness :
    (GetCapabilities w1tree).1 = {} ∧ (GetCapabilities w1tree).2.isSome = true :=
  C1_hard_failure_returns_zero_and_error w1tree (Or.inr (Or.inl rfl))

/-- C2: on the end-to-end scenario tree (PTZ absent), GetCapabilities
returns no error and exactly the expected aggregate: Network flags
false, true, false, true with Extension Foo true; Events maps PullPoint
to true (XAddr dropped, WS removed); Streaming maps RTP TCP to true
(underscore replaced); PTZ false. -/
theorem C2_end_to_end_scenario :
    GetCapabilities specTree =
      ({ Network :=
           { DynDNS := false
             IPFilter := true
             IPVersion6 := false
             ZeroConfig := true
             Extension := some [("Foo", true)] }
         Events := some [("PullPoint", true)]
         Streaming := some [("RTP TCP", true)]
         PTZ := false }, none) := by
  rfl

/-- C3: the boolean coercion helper returns true exactly when the
lower-cased string form of its argument is the literal true; hence on
any successful GetCapabilities call whose Device.Network Mapping binds
DynDNS to a string s, the resulting DynDNS flag is true exactly when s
lower-cases to true (so TRUE in any case yields true, while 1, the empty
string, or any other string yields false). -/
theorem C3_bool_coercion_strict :
    (∀ v : DynValue, interfaceToBool v = true ↔ stringToLower (interfaceToString v) = "true") ∧
    ∀ (r : DynValue) (m : List (String × DynValue)) (s : String),
      valueForPath r (envelopeBodyPath ++ ".Device.Network") = some (.map m) →
      lookupKey m "DynDNS" = some (.str s) →
      (GetCapabilities r).2 = none →
      ((GetCapabilities r).1.Network.DynDNS = true ↔ stringToLower s = "true") := by
  constructor
  · intro v
    simp [interfaceToBool]
  · intro r m s hn hdyn hok
    cases he : valueForPath r (envelopeBodyPath ++ ".Events") with
    | none => rw [gc_eventsFail r _ hn he] at hok; simp at hok
    | some ve =>
      cases hs : valueForPath r (envelopeBodyPath ++ ".Media.StreamingCapabilities") with
      | none => rw [gc_streamFail r _ ve hn he hs] at hok; simp at hok
      | some vs =>
        rw [gc_success r _ ve vs hn he hs]
        have hget : mapGet m "DynDNS" = .str s := by simp [mapGet, hdyn]
        simp [netCapOf, hget, interfaceToBool, interfaceToString]

/-- C3 witness: the upper-case value TRUE on w3tree yields DynDNS true. -/
theorem C3_witness :
    ((GetCapabilities w3tree).1.Network.DynDNS = true ↔ stringToLower "TRUE" = "true") ∧
    (GetCapabilities w3tree).1.Network.DynDNS = true :=
  ⟨C3_bool_coercion_strict.2 w3tree [("DynDNS", .str "TRUE")] "TRUE" rfl rfl rfl, rfl⟩

/-- C7: whenever the three mandatory branches are present,
GetCapabilities returns no error (a PTZ lookup failure is swallowed) and
the PTZ flag equals the presence of the PTZ path, whatever value (even
Null) is found there. -/
theorem C7_ptz_presence_as_boolean (r : DynValue) (vn ve vs : DynValue)
    (hn : valueForPath r (envelopeBodyPath ++ ".Device.Network") = some vn)
    (he : valueForPath r (envelopeBodyPath ++ ".Events") = some ve)
    (hs : valueForPath r (envelopeBodyPath ++ ".Media.StreamingCapabilities") = some vs) :
    (GetCapabilities r).2 = none ∧
      (GetCapabilities r).1.PTZ = (valueForPath r (envelopeBodyPath ++ ".PTZ")).isSome := by
  rw [gc_success r vn ve vs hn he hs]
  exact ⟨rfl, rfl⟩

/-- C7 witness: w7tree holds a Null node at the PTZ path and yields PTZ
true with no error; the scenario tree without a PTZ branch yields PTZ
false with no error. -/
theorem C7_witness :
    ((GetCapabilities w7tree).2 = none ∧
      (GetCapabilities w7tree).1.PTZ = (valueForPath w7tree (envelopeBodyPath ++ ".PTZ")).isSome) ∧
    (GetCapabilities w7tree).1.PTZ = true :=
  ⟨C7_ptz_presence_as_boolean w7tree (.map []) (.map []) (.map []) rfl rfl rfl, rfl⟩

/-- C9: on every successful call the Events and Streaming maps are
initialized (never the nil state), even when the corresponding branch
exists but is not a Mapping, in which case the call still succeeds and
the map is empty. -/
theorem C9_events_streaming_always_initialized (r : DynValue) (vn ve vs : DynValue)
    (hn : valueForPath r (envelopeBodyPath ++ ".Device.Network") = some vn)
    (he : valueForPath r (envelopeBodyPath ++ ".Events") = some ve)
    (hs : valueForPath r (envelopeBodyPath ++ ".Media.StreamingCapabilities") = some vs) :
    (GetCapabilities r).2 = none ∧
      ((GetCapabilities r).1.Events).isSome = true ∧
      ((GetCapabilities r).1.Streaming).isSome = true ∧
      (ve.isMap = false → (GetCapabilities r).1.Events = some []) ∧
      (vs.isMap = false → (GetCapabilities r).1.Streaming = some []) := by
  rw [gc_success r vn ve vs hn he hs]
  refine ⟨rfl, rfl, rfl, ?_, ?_⟩
  · intro hm
    cases ve with
    | map m => simp [DynValue.isMap] at hm
    | null => rfl
    | bool b => rfl
    | num n => rfl
    | str s => rfl
    | list l => rfl
  · intro hm
    cases vs with
    | map m => simp [DynValue.isMap] at hm
    | null => rfl
    | bool b => rfl
    | num n => rfl
    | str s => rfl
    | list l => rfl

/-- C9 witness: w9tree has a scalar Events branch and a numeric
StreamingCapabilities branch, and both resulting maps are the empty
initialized map while the call succeeds. -/
theorem C9_witness :
    (GetCapabilities w9tree).2 = none ∧
      ((GetCapabilities w9tree).1.Events).isSome = true ∧
      ((GetCapabilities w9tree).1.Streaming).isSome = true ∧
      ((DynValue.str "scalar").isMap = false → (GetCapabilities w9tree).1.Events = some []) ∧
      ((DynValue.num 3).isMap = false → (GetCapabilities w9tree).1.Streaming = some []) :=
  C9_events_streaming_always_initialized w9tree (.map []) (.str "scalar") (.num 3) rfl rfl rfl

/-- C10: the string coercion maps every non-String node to the empty
string, so the boolean coercion reports false for every non-String node
(a native Boolean, a Number, Null, a List, or a Mapping). -/
theorem C10_non_string_coerces_to_false (v : DynValue) (h : v.isStr = false) :
    interfaceToString v = "" ∧ interfaceToBool v = false := by
  cases v with
  | str s => simp [DynValue.isStr] at h
  | null => exact ⟨rfl, rfl⟩
  | bool b => exact ⟨rfl, rfl⟩
  | num n => exact ⟨rfl, rfl⟩
  | list l => exact ⟨rfl, rfl⟩
  | map m => exact ⟨rfl, rfl⟩

/-- C10 witness: the native Boolean true node coerces to the empty
string and to false. -/
theorem C10_witness :
    interfaceToString (DynValue.bool true) = "" ∧ interfaceToBool (DynValue.bool true) = false :=
  C10_non_string_coerces_to_false (DynValue.bool true) rfl

/-! Trees and entry lists for the corrected claims. -/

/-- c4events contains the wire key WSNotificationSubscription together
with a second key whose rename collides with it. -/
def c4events : List (String × DynValue) :=
  [("WSNotificationSubscription", .str "true"),
   ("WSWSNotificationSubscription", .str "false")]

/-- c4tree embeds c4events as the Events branch of a full response. -/
def c4tree : DynValue :=
  mkCapabilitiesResponse [
    ("Device", .map [("Network", .map [])]),
    ("Events", .map c4events),
    ("Media", .map [("StreamingCapabilities", .map [])])]

/-- c5tree has an Events wire key WSXAddr (renaming to XAddr) and a
StreamingCapabilities wire key XAddr. -/
def c5tree : DynValue :=
  mkCapabilitiesResponse [
    ("Device", .map [("Network", .map [])]),
    ("Events", .map [("WSXAddr", .str "true")]),
    ("Media", .map [("StreamingCapabilities", .map [("XAddr", .str "http://x")])])]

/-- c6tree has a Device.Network branch that exists but is a string, not
a Mapping. -/
def c6tree : DynValue :=
  mkCapabilitiesResponse [
    ("Device", .map [("Network", .str "oops")]),
    ("Events", .map []),
    ("Media", .map [("StreamingCapabilities", .map [])])]

/-- w6tree has a Device.Network Mapping without an Extension entry. -/
def w6tree : DynValue :=
  mkCapabilitiesResponse [
    ("Device", .map [("Network", .map [("DynDNS", .str "true")])]),
    ("Events", .map []),
    ("Media", .map [("StreamingCapabilities", .map [])])]

/-- c8eventsA holds two entries whose renamed keys collide, with
different values. -/
def c8eventsA : List (String × DynValue) :=
  [("WSNotificationSubscription", .str "true"),
   ("NotificationSubscription", .str "false")]

/-- c8eventsB is c8eventsA in the opposite order. -/
def c8eventsB : List (String × DynValue) :=
  [("NotificationSubscription", .str "false"),
   ("WSNotificationSubscription", .str "true")]

/-- c8treeA embeds c8eventsA as the Events branch. -/
def c8treeA : DynValue :=
  mkCapabilitiesResponse [
    ("Device", .map [("Network", .map [])]),
    ("Events", .map c8eventsA),
    ("Media", .map [("StreamingCapabilities", .map [])])]

/-- c8treeB embeds c8eventsB as the Events branch. -/
def c8treeB : DynValue :=
  mkCapabilitiesResponse [
    ("Device", .map [("Network", .map [])]),
    ("Events", .map c8eventsB),
    ("Media", .map [("StreamingCapabilities", .map [])])]

/-- c8wiresA is a collision-free two-entry Events list. -/
def c8wiresA : List (String × DynValue) :=
  [("A", .str "true"), ("B", .str "false")]

/-- c8wiresB is c8wiresA in the opposite order. -/
def c8wiresB : List (String × DynValue) :=
  [("B", .str "false"), ("A", .str "true")]

/-- C4 counterexample: the Events branch of c4tree contains the wire key
WSNotificationSubscription, the call succeeds, and the resulting Events
mapping still contains that original key (the second wire key renames to
it), refuting the claim that the original key never remains. -/
theorem C4_counterexample :
    lookupKey c4events "WSNotificationSubscription" = some (.str "true") ∧
      valueForPath c4tree (envelopeBodyPath ++ ".Events") = some (.map c4events) ∧
      (GetCapabilities c4tree).2 = none ∧
      capHasKey (GetCapabilities c4tree).1.Events "NotificationSubscription" = true ∧
      capHasKey (GetCapabilities c4tree).1.Events "WSNotificationSubscription" = true :=
  ⟨rfl, rfl, rfl, rfl, rfl⟩

/-- C4 amended: Events wire keys lower-casing to xaddr are skipped
entirely (filtering them away changes nothing), and every other wire key
is stored under its first-WS-occurrence-removed form; hence a tree whose
Events branch contains WSNotificationSubscription yields an Events
mapping containing NotificationSubscription, though the original key may
also appear when another wire key renames to it. -/
theorem C4_amended_events_rename :
    (∀ m : List (String × DynValue),
       eventsFromMap m = eventsFromMap (m.filter fun p => !(stringToLower p.1 == "xaddr"))) ∧
    ∀ (r : DynValue) (m : List (String × DynValue)),
      valueForPath r (envelopeBodyPath ++ ".Events") = some (.map m) →
      (GetCapabilities r).2 = none →
      ∀ (k : String) (v : DynValue), (k, v) ∈ m → stringToLower k ≠ "xaddr" →
        capHasKey (GetCapabilities r).1.Events (stringsReplaceOnce k "WS" "") = true := by
  constructor
  · intro m
    exact foldl_filter_skip _ _ m []
  · intro r m he hok k v hmem hk
    cases hn : valueForPath r (envelopeBodyPath ++ ".Device.Network") with
    | none => rw [gc_netFail r hn] at hok; simp at hok
    | some vn =>
      cases hs : valueForPath r (envelopeBodyPath ++ ".Media.StreamingCapabilities") with
      | none => rw [gc_streamFail r vn _ hn he hs] at hok; simp at hok
      | some vs =>
        rw [gc_success r vn _ vs hn he hs]
        have hskip : (stringToLower k == "xaddr") = false := by
          rw [beq_eq_false_iff_ne]; exact hk
        simpa [capHasKey, eventsCapOf, eventsFromMap, buildCapMap] using
          hasKey_foldl_of_mem _ _ m [] k v hmem hskip

/-- C4 witness: on c4tree the renamed key NotificationSubscription is
present in the Events result. -/
theorem C4_witness :
    capHasKey (GetCapabilities c4tree).1.Events
      (stringsReplaceOnce "WSNotificationSubscription" "WS" "") = true :=
  C4_amended_events_rename.2 c4tree c4events rfl rfl
    "WSNotificationSubscription" (.str "true") (List.mem_cons_self _ _) (by decide)

/-- C5 counterexample: on c5tree the call succeeds and both the Events
result (via the rename of WSXAddr) and the Streaming result (which
applies no xaddr filter at all) contain the key XAddr, which lower-cases
to xaddr — refuting the claimed invariant. -/
theorem C5_counterexample :
    (GetCapabilities c5tree).2 = none ∧
      stringToLower "XAddr" = "xaddr" ∧
      capHasKey (GetCapabilities c5tree).1.Events "XAddr" = true ∧
      capHasKey (GetCapabilities c5tree).1.Streaming "XAddr" = true :=
  ⟨rfl, rfl, rfl, rfl⟩

/-- C5 amended: the xaddr filter applies only to Events and only to wire
keys before renaming: every key of the Events result is the
WS-rename of a wire key that does not lower-case to xaddr, and every key
of the Streaming result is the underscore-rename of an arbitrary wire
key (no xaddr filtering); a key lower-casing to xaddr can therefore
still appear in both maps. -/
theorem C5_amended_key_provenance :
    ∀ (r : DynValue) (me ms : List (String × DynValue)),
      valueForPath r (envelopeBodyPath ++ ".Events") = some (.map me) →
      valueForPath r (envelopeBodyPath ++ ".Media.StreamingCapabilities") = some (.map ms) →
      (GetCapabilities r).2 = none →
      (∀ k', capHasKey (GetCapabilities r).1.Events k' = true →
         ∃ k v, (k, v) ∈ me ∧ stringToLower k ≠ "xaddr" ∧
           k' = stringsReplaceOnce k "WS" "") ∧
      (∀ k', capHasKey (GetCapabilities r).1.Streaming k' = true →
         ∃ k v, (k, v) ∈ ms ∧ k' = stringsReplaceAll k "_" " ") := by
  intro r me ms he hs hok
  cases hn : valueForPath r (envelopeBodyPath ++ ".Device.Network") with
  | none => rw [gc_netFail r hn] at hok; simp at hok
  | some vn =>
    rw [gc_success r vn _ _ hn he hs]
    constructor
    · intro k' hk'
      have hk'' : hasKey (eventsFromMap me) k' = true := by
        simpa [capHasKey, eventsCapOf] using hk'
      rcases hasKey_foldl_source _ _ me [] k' hk'' with hnil | ⟨k, v, hm, hskip, heq⟩
      · simp [hasKey] at hnil
      · refine ⟨k, v, hm, ?_, heq⟩
        rw [beq_eq_false_iff_ne] at hskip
        exact hskip
    · intro k' hk'
      have hk'' : hasKey (streamingFromMap ms) k' = true := by
        simpa [capHasKey, streamingCapOf] using hk'
      rcases hasKey_foldl_source _ _ ms [] k' hk'' with hnil | ⟨k, v, hm, _, heq⟩
      · simp [hasKey] at hnil
      · exact ⟨k, v, hm, heq⟩

/-- C5 witness: on c5tree the Events key XAddr is accounted for by the
wire key WSXAddr, whose rename removes the leading WS. -/
theorem C5_witness : "XAddr" = stringsReplaceOnce "WSXAddr" "WS" "" := by
  obtain ⟨k, v, hm, _, heq⟩ :=
    (C5_amended_key_provenance c5tree [("WSXAddr", .str "true")]
      [("XAddr", .str "http://x")] rfl rfl rfl).1 "XAddr" rfl
  have hk : k = "WSXAddr" := congrArg Prod.fst (List.mem_singleton.mp hm)
  rw [hk] at heq
  exact heq

/-- C6 counterexample: on c6tree the Device.Network branch exists but is
a string, the call succeeds, and Network.Extension is the nil state, not
an initialized empty mapping — refuting the claim for this case. -/
theorem C6_counterexample :
    valueForPath c6tree (envelopeBodyPath ++ ".Device.Network") = some (.str "oops") ∧
      (GetCapabilities c6tree).2 = none ∧
      (GetCapabilities c6tree).1.Network.Extension = none :=
  ⟨rfl, rfl, rfl⟩

/-- C6 amended: on every successful call whose Device.Network branch is
a Mapping, Network.Extension is initialized, and it is the empty mapping
whenever the Extension sub-entry is absent or not a Mapping; when the
Device.Network branch exists but is not a Mapping, the whole
NetworkCapabilities stays zero-valued and Extension remains nil. -/
theorem C6_amended_extension_initialized (r : DynValue)
    (m : List (String × DynValue)) (ve vs : DynValue)
    (hn : valueForPath r (envelopeBodyPath ++ ".Device.Network") = some (.map m))
    (he : valueForPath r (envelopeBodyPath ++ ".Events") = some ve)
    (hs : valueForPath r (envelopeBodyPath ++ ".Media.StreamingCapabilities") = some vs) :
    ((GetCapabilities r).1.Network.Extension).isSome = true ∧
      ((∀ em : List (String × DynValue), lookupKey m "Extension" ≠ some (.map em)) →
        (GetCapabilities r).1.Network.Extension = some []) := by
  rw [gc_success r _ ve vs hn he hs]
  refine ⟨rfl, fun hno => ?_⟩
  cases hl : lookupKey m "Extension" with
  | none => simp [netCapOf, hl]
  | some v =>
    cases v with
    | map em => exact absurd hl (hno em)
    | null => simp [netCapOf, hl]
    | bool b => simp [netCapOf, hl]
    | num n => simp [netCapOf, hl]
    | str s => simp [netCapOf, hl]
    | list l => simp [netCapOf, hl]

/-- C6 witness: on w6tree, whose Network Mapping has no Extension entry,
the Extension map is initialized and empty. -/
theorem C6_witness :
    ((GetCapabilities w6tree).1.Network.Extension).isSome = true ∧
      (GetCapabilities w6tree).1.Network.Extension = some [] :=
  ⟨(C6_amended_extension_initialized w6tree [("DynDNS", .str "true")]
      (.map []) (.map []) rfl rfl rfl).1,
   (C6_amended_extension_initialized w6tree [("DynDNS", .str "true")]
      (.map []) (.map []) rfl rfl rfl).2
     (fun _em h => Option.noConfusion h)⟩

/-- C8 counterexample: c8treeA and c8treeB carry the same decoded Events
Mapping (their entry lists are permutations of each other), modelling
two iteration orders of one immutable input, yet GetCapabilities returns
different aggregates, because the wire keys WSNotificationSubscription
and NotificationSubscription rename to the same domain key and the last
processed entry wins. -/
theorem C8_counterexample :
    c8eventsA.Perm c8eventsB ∧ GetCapabilities c8treeA ≠ GetCapabilities c8treeB :=
  ⟨List.Perm.swap _ _ _, by decide⟩

/-- C8 amended: the embedding of each per-branch loop is a function of
the entry list, and it is insensitive to the iteration order whenever no
two unskipped wire entries rename to the same domain key (pairwise
RenameApart); when two distinct wire keys do collide after renaming, the
last processed wins, so two iteration orders of one Mapping may yield
different aggregates. -/
theorem C8_amended_order_insensitive_without_collision :
    (∀ l₁ l₂ : List (String × DynValue), l₁.Perm l₂ →
       l₁.Pairwise (RenameApart (fun key => stringToLower key == "xaddr")
         (fun key => stringsReplaceOnce key "WS" "")) →
       eventsFromMap l₁ = eventsFromMap l₂) ∧
    (∀ l₁ l₂ : List (String × DynValue), l₁.Perm l₂ →
       l₁.Pairwise (RenameApart (fun _ => false)
         (fun key => stringsReplaceAll key "_" " ")) →
       streamingFromMap l₁ = streamingFromMap l₂) ∧
    (∀ l₁ l₂ : List (String × DynValue), l₁.Perm l₂ →
       l₁.Pairwise (RenameApart (fun _ => false) (fun key => key)) →
       extensionFromMap l₁ = extensionFromMap l₂) := by
  refine ⟨?_, ?_, ?_⟩ <;>
    exact fun l₁ l₂ p hp => foldl_perm_of_renameApart _ _ p hp []

/-- C8 witness: the collision-free lists c8wiresA and c8wiresB are
permutations of each other and produce the same Events map. -/
theorem C8_witness : eventsFromMap c8wiresA = eventsFromMap c8wiresB :=
  C8_amended_order_insensitive_without_collision.1 c8wiresA c8wiresB
    (List.Perm.swap _ _ _)
    (List.Pairwise.cons
      (fun q hq => by
        have hq' : q = ("B", DynValue.str "false") := List.mem_singleton.mp hq
        subst hq'
        exact Or.inr (Or.inr (by decide)))
      (List.pairwise_singleton _ _))
